import Mathlib

/-!
A shallow embedding of the `XmlReader` from `hard-xml`'s `src/xml_reader.rs`.

The reader is a cursor over a peekable stream of tokenizer items.  Each item
is either a token or a lexical error from the underlying tokenizer
(`xmlparser`), which we model as `Except String Token`; a stream is a plain
list of items, and peeking is looking at the head.  Every reader operation is
translated as a function from the stream to a result paired with the
remaining stream (the tokens after the last one the operation consumed).

Tokens carry only the pieces the reader inspects: local tag names, attribute
name/value slices, and text/CDATA contents.  The `Comment` and
`ProcessingInstruction` variants stand for the tokenizer's remaining token
kinds, all of which the reader treats uniformly through its catch-all match
arms.
-/

namespace HardXml

/-- The `xmlparser::ElementEnd` variants: `>`, `/>`, and `</name>`. -/
inductive ElementEnd where
  | Open : ElementEnd
  | Empty : ElementEnd
  | Close (name : String) : ElementEnd
deriving DecidableEq

/-- The `xmlparser::Token` variants the reader distinguishes.  `Comment` and
`ProcessingInstruction` represent the token kinds that every reader operation
handles through a catch-all arm. -/
inductive Token where
  | ElementStart (name : String) : Token
  | Attribute (name value : String) : Token
  | ElementEnd (e : ElementEnd) : Token
  | Text (text : String) : Token
  | Cdata (text : String) : Token
  | Comment (text : String) : Token
  | ProcessingInstruction (text : String) : Token
deriving DecidableEq

/-- The error taxonomy of the crate (`XmlError`): unexpected end of stream,
an unexpected token (carrying its debug rendering), a close-tag name
mismatch, a malformed character reference, and a wrapped tokenizer error. -/
inductive XmlError where
  | UnexpectedEof : XmlError
  | UnexpectedToken (token : String) : XmlError
  | TagMismatch (expected found : String) : XmlError
  | EscapeError : XmlError
  | LexError (err : String) : XmlError
deriving DecidableEq

/-- A tokenizer item: a token or a lexical error. -/
abbrev TokenItem := Except String Token

/-- The reader's input: the not-yet-consumed suffix of the token stream. -/
abbrev TokenStream := List TokenItem

/-- Stands for Rust's `format!("{:?}", token)` used to fill
`XmlError::UnexpectedToken`; the reader never inspects this string. -/
def tokenDebug : Token → String
  | .ElementStart name => "ElementStart(" ++ name ++ ")"
  | .Attribute name value => "Attribute(" ++ name ++ ", " ++ value ++ ")"
  | .ElementEnd .Open => "ElementEnd(Open)"
  | .ElementEnd .Empty => "ElementEnd(Empty)"
  | .ElementEnd (.Close name) => "ElementEnd(Close(" ++ name ++ "))"
  | .Text text => "Text(" ++ text ++ ")"
  | .Cdata text => "Cdata(" ++ text ++ ")"
  | .Comment text => "Comment(" ++ text ++ ")"
  | .ProcessingInstruction text => "ProcessingInstruction(" ++ text ++ ")"

/-- Value of a hexadecimal digit character, if it is one. -/
def hexDigit (c : Char) : Option Nat :=
  if '0' ≤ c ∧ c ≤ '9' then some (c.toNat - 48)
  else if 'a' ≤ c ∧ c ≤ 'f' then some (c.toNat - 87)
  else if 'A' ≤ c ∧ c ≤ 'F' then some (c.toNat - 55)
  else none

/-- Value of a decimal digit character, if it is one. -/
def decDigit (c : Char) : Option Nat :=
  if '0' ≤ c ∧ c ≤ '9' then some (c.toNat - 48) else none

/-- Accumulate the value of a digit string in the given base; `none` when a
non-digit occurs. -/
def digitsVal (dv : Char → Option Nat) (base : Nat) : Nat → List Char → Option Nat
  | acc, [] => some acc
  | acc, c :: cs =>
    match dv c with
    | some d => digitsVal dv base (base * acc + d) cs
    | none => none

/-- The character with the given scalar value, if that value is a valid
Unicode scalar. -/
def charFromCode (n : Nat) : Option Char :=
  if n.isValidChar then some (Char.ofNat n) else none

/-- Decode the body of one character reference (the characters between `&`
and `;`): one of the five named entities, or `#` + decimal digits, or
`#x` + hexadecimal digits. -/
def decodeEntity : List Char → Option Char
  | ['l', 't'] => some '<'
  | ['g', 't'] => some '>'
  | ['a', 'm', 'p'] => some '&'
  | ['a', 'p', 'o', 's'] => some (Char.ofNat 39)
  | ['q', 'u', 'o', 't'] => some (Char.ofNat 34)
  | '#' :: 'x' :: cs =>
    if cs.isEmpty then none
    else
      match digitsVal hexDigit 16 0 cs with
      | some n => charFromCode n
      | none => none
  | '#' :: cs =>
    if cs.isEmpty then none
    else
      match digitsVal decDigit 10 0 cs with
      | some n => charFromCode n
      | none => none
  | _ => none

/-- The unescaping scan: outside a reference (`none` state) characters pass
through; `&` opens a reference whose body accumulates (reversed) until `;`.
An unterminated or undecodable reference is an escape error. -/
def unescapeGo : Option (List Char) → List Char → List Char → Except XmlError (List Char)
  | none, out, [] => .ok out.reverse
  | none, out, c :: cs =>
    if c = '&' then unescapeGo (some []) out cs
    else unescapeGo none (c :: out) cs
  | some _, _, [] => .error .EscapeError
  | some acc, out, c :: cs =>
    if c = ';' then
      match decodeEntity acc.reverse with
      | some d => unescapeGo none (d :: out) cs
      | none => .error .EscapeError
    else unescapeGo (some (c :: acc)) out cs

/-- Modelled from the spec: the crate's `xml_unescape` routine
(`src/xml_unescape.rs`, not part of the sources at hand).  Per the spec it
decodes the five named entities `&lt; &gt; &amp; &apos; &quot;` and
decimal/hexadecimal numeric character references `&#...;` / `&#x...;`, and
reports an escape error on an unterminated or unrecognized reference; text
without references passes through unchanged. -/
def xml_unescape (s : String) : Except XmlError String :=
  match unescapeGo none [] s.data with
  | .ok cs => .ok (String.mk cs)
  | .error e => .error e

/-- The loop of `XmlReader::read_text` (`src/xml_reader.rs:39`), with the
`res` accumulator explicit.  Tag-open markers and attributes are skipped;
a text run is unescaped into the accumulator; a CDATA run enters the
accumulator verbatim; the matching close tag or an empty marker resolves to
the accumulated value (empty when none); a differently named close tag is a
tag mismatch; any other token is unexpected.  When the stream ends the loop
falls through and the accumulated value is returned. -/
def read_text_go (end_tag : String) (res : Option String) : TokenStream → Except XmlError String × TokenStream
  | [] => (.ok (res.getD ""), [])
  | .error e :: ts => (.error (.LexError e), ts)
  | .ok (.ElementEnd .Open) :: ts => read_text_go end_tag res ts
  | .ok (.Attribute _ _) :: ts => read_text_go end_tag res ts
  | .ok (.Text text) :: ts =>
    match xml_unescape text with
    | .ok u => read_text_go end_tag (some u) ts
    | .error e => (.error e, ts)
  | .ok (.Cdata text) :: ts => read_text_go end_tag (some text) ts
  | .ok (.ElementEnd (.Close tag)) :: ts =>
    if end_tag = tag then (.ok (res.getD ""), ts)
    else (.error (.TagMismatch end_tag tag), ts)
  | .ok (.ElementEnd .Empty) :: ts => (.ok (res.getD ""), ts)
  | .ok tok :: ts => (.error (.UnexpectedToken (tokenDebug tok)), ts)

/-- `XmlReader::read_text` (`src/xml_reader.rs:39`): the loop above started
with an empty accumulator. -/
def read_text (end_tag : String) (s : TokenStream) : Except XmlError String × TokenStream :=
  read_text_go end_tag none s

/-- Both loops of `XmlReader::read_to_end` (`src/xml_reader.rs:185`) merged
into one recursion.  `draining = true` is the attribute-draining loop run
after an element-start token (the initial loop is this state at depth `0`,
the inner re-drain at the tracked depth): an empty marker at depth `0`
finishes, at positive depth it returns to tracking unchanged; a tag-open
marker moves to tracking with the depth incremented; attributes are skipped;
anything else is unexpected.  `draining = false` is the depth-tracking loop:
a same-named element start re-enters draining; a same-named close tag
decrements the depth and finishes at zero; every other token is ignored.
Stream exhaustion in either loop is an unexpected end of stream. -/
def read_to_end_go (end_tag : String) : Bool → Nat → TokenStream → Except XmlError Unit × TokenStream
  | _, _, [] => (.error .UnexpectedEof, [])
  | true, _, .error e :: ts => (.error (.LexError e), ts)
  | true, depth, .ok (.ElementEnd .Empty) :: ts =>
    if depth = 0 then (.ok (), ts) else read_to_end_go end_tag false depth ts
  | true, depth, .ok (.ElementEnd .Open) :: ts => read_to_end_go end_tag false (depth + 1) ts
  | true, depth, .ok (.Attribute _ _) :: ts => read_to_end_go end_tag true depth ts
  | true, _, .ok tok :: ts => (.error (.UnexpectedToken (tokenDebug tok)), ts)
  | false, _, .error e :: ts => (.error (.LexError e), ts)
  | false, depth, .ok (.ElementStart name) :: ts =>
    if end_tag = name then read_to_end_go end_tag true depth ts
    else read_to_end_go end_tag false depth ts
  | false, depth, .ok (.ElementEnd (.Close name)) :: ts =>
    if end_tag = name then
      if depth - 1 = 0 then (.ok (), ts) else read_to_end_go end_tag false (depth - 1) ts
    else read_to_end_go end_tag false depth ts
  | false, depth, .ok _ :: ts => read_to_end_go end_tag false depth ts

/-- `XmlReader::read_to_end` (`src/xml_reader.rs:185`): entered right after
the element-start token, in the attribute-draining state at depth `0`. -/
def read_to_end (end_tag : String) (s : TokenStream) : Except XmlError Unit × TokenStream :=
  read_to_end_go end_tag true 0 s

/-- `XmlReader::find_attribute` (`src/xml_reader.rs:112`): peek one item.
An attribute is consumed and returned; a tag-open or empty marker is left in
place and signals the end of the attribute list; any other token is left in
place as unexpected; a lexical error is consumed and propagated; an empty
stream is an unexpected end of stream. -/
def find_attribute : TokenStream → Except XmlError (Option (String × String)) × TokenStream
  | [] => (.error .UnexpectedEof, [])
  | .ok (.Attribute name value) :: ts => (.ok (some (name, value)), ts)
  | .ok (.ElementEnd .Open) :: ts => (.ok none, .ok (.ElementEnd .Open) :: ts)
  | .ok (.ElementEnd .Empty) :: ts => (.ok none, .ok (.ElementEnd .Empty) :: ts)
  | .ok tok :: ts => (.error (.UnexpectedToken (tokenDebug tok)), .ok tok :: ts)
  | .error e :: ts => (.error (.LexError e), ts)

/-- `XmlReader::find_element_start` (`src/xml_reader.rs:147`): peek items in
a loop.  An element start returns its name unconsumed; when an expected end
tag is given, its close tag is consumed and resolves to `none` while a
differently named close tag is a tag mismatch left unconsumed; tag-open and
empty markers, attributes, and (absent an expected end tag) close tags are
unexpected and left unconsumed; lexical errors are consumed and propagated;
every other token kind is consumed and skipped; an exhausted stream is an
unexpected end of stream. -/
def find_element_start (end_tag : Option String) : TokenStream → Except XmlError (Option String) × TokenStream
  | [] => (.error .UnexpectedEof, [])
  | .ok (.ElementStart name) :: ts => (.ok (some name), .ok (.ElementStart name) :: ts)
  | .ok (.ElementEnd (.Close tag)) :: ts =>
    match end_tag with
    | some expected =>
      if tag = expected then (.ok none, ts)
      else (.error (.TagMismatch expected tag), .ok (.ElementEnd (.Close tag)) :: ts)
    | none =>
      (.error (.UnexpectedToken (tokenDebug (.ElementEnd (.Close tag)))), .ok (.ElementEnd (.Close tag)) :: ts)
  | .ok (.ElementEnd e) :: ts =>
    (.error (.UnexpectedToken (tokenDebug (.ElementEnd e))), .ok (.ElementEnd e) :: ts)
  | .ok (.Attribute name value) :: ts =>
    (.error (.UnexpectedToken (tokenDebug (.Attribute name value))), .ok (.Attribute name value) :: ts)
  | .error e :: ts => (.error (.LexError e), ts)
  | .ok _ :: ts => find_element_start end_tag ts

/-- The remaining stream returned by `read_to_end_go` is never longer than
its input. -/
theorem read_to_end_go_length (end_tag : String) :
    ∀ (s : TokenStream) (b : Bool) (d : Nat), (read_to_end_go end_tag b d s).2.length ≤ s.length := by
  intro s
  induction s with
  | nil => intro b d; simp [read_to_end_go]
  | cons t ts ih =>
    intro b d
    cases b <;>
      rcases t with e | tok <;>
      (try rcases tok with name | ⟨n, v⟩ | em | t1 | t2 | t3 | t4) <;>
      (try rcases em with _ | _ | name) <;>
      simp only [read_to_end_go, List.length_cons] <;>
      (repeat' split) <;>
      first
        | exact le_trans (ih _ _) (Nat.le_succ _)
        | simp

/-- The remaining stream returned by `read_to_end` is never longer than its
input. -/
theorem read_to_end_length (end_tag : String) (s : TokenStream) :
    (read_to_end end_tag s).2.length ≤ s.length :=
  read_to_end_go_length end_tag s true 0

/-- `XmlReader::read_till_element_start` (`src/xml_reader.rs:86`): consume
items in a loop.  A matching element start finishes; a differently named
element start has its whole subtree skipped by `read_to_end` before the
search continues; end markers, attributes, text and CDATA are unexpected;
every other token kind is skipped; a lexical error propagates.  When the
stream is exhausted the loop falls through and the call returns success. -/
def read_till_element_start (end_tag : String) : TokenStream → Except XmlError Unit × TokenStream
  | [] => (.ok (), [])
  | .error e :: ts => (.error (.LexError e), ts)
  | .ok (.ElementStart name) :: ts =>
    if end_tag = name then (.ok (), ts)
    else
      match h : read_to_end name ts with
      | (.ok _, ts2) => read_till_element_start end_tag ts2
      | (.error e, ts2) => (.error e, ts2)
  | .ok (.ElementEnd e) :: ts => (.error (.UnexpectedToken (tokenDebug (.ElementEnd e))), ts)
  | .ok (.Attribute name value) :: ts =>
    (.error (.UnexpectedToken (tokenDebug (.Attribute name value))), ts)
  | .ok (.Text text) :: ts => (.error (.UnexpectedToken (tokenDebug (.Text text))), ts)
  | .ok (.Cdata text) :: ts => (.error (.UnexpectedToken (tokenDebug (.Cdata text))), ts)
  | .ok _ :: ts => read_till_element_start end_tag ts
termination_by s => s.length
decreasing_by
  · simp only [List.length_cons]
    have h2 := read_to_end_length name ts
    rw [h] at h2
    simp at h2
    omega
  · simp

/-- If appending `p` in front of `ts` yields `t :: ts`, then `p` is exactly
the singleton `[t]`. -/
theorem hx_append_eq_cons_self {α : Type} {p ts : List α} {t : α} (h : t :: ts = p ++ ts) :
    p = [t] := by
  have hlen := congrArg List.length h
  simp only [List.length_cons, List.length_append] at hlen
  cases p with
  | nil => simp at hlen
  | cons x p2 =>
    cases p2 with
    | nil =>
      simp only [List.singleton_append, List.cons.injEq] at h
      rw [h.1]
    | cons y p3 => simp only [List.length_cons] at hlen; omega

/-- A list is only equal to `p ++` itself when `p` is empty. -/
theorem hx_self_eq_append {α : Type} {l p : List α} (h : l = p ++ l) : p = [] := by
  have hlen := congrArg List.length h
  simp only [List.length_append] at hlen
  have : p.length = 0 := by omega
  exact List.length_eq_zero.mp this

/-- Splitting `t :: ts` as `p ++ s2` with `s2` no longer than `ts` forces
`p` to start with `t`. -/
theorem hx_cons_append_decomp {α : Type} {t : α} {ts p s2 : List α} (h : t :: ts = p ++ s2)
    (hl : s2.length ≤ ts.length) : ∃ p2, p = t :: p2 ∧ ts = p2 ++ s2 := by
  cases p with
  | nil =>
    simp only [List.nil_append] at h
    rw [← h] at hl
    simp at hl
  | cons x p2 =>
    simp only [List.cons_append, List.cons.injEq] at h
    exact ⟨p2, by rw [h.1], h.2⟩

/-- The remaining stream returned by `read_text_go` is never longer than its
input. -/
theorem read_text_go_length (end_tag : String) :
    ∀ (s : TokenStream) (res : Option String), (read_text_go end_tag res s).2.length ≤ s.length := by
  intro s
  induction s with
  | nil => intro res; simp [read_text_go]
  | cons t ts ih =>
    intro res
    rcases t with e | tok <;>
      (try rcases tok with name | ⟨n, v⟩ | em | t1 | t2 | t3 | t4) <;>
      (try rcases em with _ | _ | name) <;>
      simp only [read_text_go, List.length_cons] <;>
      (repeat' split) <;>
      first
        | exact le_trans (ih _) (Nat.le_succ _)
        | simp

/-- The remaining stream returned by `find_element_start` is never longer
than its input. -/
theorem find_element_start_length (end_tag : Option String) :
    ∀ s : TokenStream, (find_element_start end_tag s).2.length ≤ s.length := by
  intro s
  induction s with
  | nil => simp [find_element_start]
  | cons t ts ih =>
    rcases t with e | tok <;>
      (try rcases tok with name | ⟨n, v⟩ | em | t1 | t2 | t3 | t4) <;>
      (try rcases em with _ | _ | name) <;>
      simp only [find_element_start, List.length_cons] <;>
      (repeat' split) <;>
      first
        | exact le_trans ih (Nat.le_succ _)
        | simp

/-- Every close tag `read_text_go` consumes is checked against the expected
name: if a differently named close tag lies in the consumed prefix, the
result is exactly the corresponding tag mismatch. -/
theorem read_text_go_close_mismatch (end_tag : String) :
    ∀ (s : TokenStream) (res : Option String) (r : Except XmlError String) (s2 p : TokenStream)
      (tag : String),
      read_text_go end_tag res s = (r, s2) → s = p ++ s2 →
      (Except.ok (Token.ElementEnd (ElementEnd.Close tag)) : TokenItem) ∈ p → tag ≠ end_tag →
      r = .error (.TagMismatch end_tag tag) := by
  intro s
  induction s with
  | nil =>
    intro res r s2 p tag hEq hSplit hMem _
    simp only [read_text_go, Prod.mk.injEq] at hEq
    obtain ⟨_, h2⟩ := hEq
    subst h2
    simp only [List.append_nil] at hSplit
    rw [← hSplit] at hMem
    simp at hMem
  | cons t ts ih =>
    intro res r s2 p tag hEq hSplit hMem hNe
    rcases t with e | tok
    · simp only [read_text_go, Prod.mk.injEq] at hEq
      obtain ⟨_, h2⟩ := hEq
      subst h2
      rw [hx_append_eq_cons_self hSplit] at hMem
      simp at hMem
    · rcases tok with name | ⟨an, av⟩ | em | txt | txt | txt | txt
      · simp only [read_text_go, Prod.mk.injEq] at hEq
        obtain ⟨_, h2⟩ := hEq
        subst h2
        rw [hx_append_eq_cons_self hSplit] at hMem
        simp at hMem
      · simp only [read_text_go] at hEq
        have hl : s2.length ≤ ts.length := by
          have hlen := read_text_go_length end_tag ts res
          rw [hEq] at hlen
          simpa using hlen
        obtain ⟨p2, hp, hts⟩ := hx_cons_append_decomp hSplit hl
        subst hp
        have hMem2 : (Except.ok (Token.ElementEnd (ElementEnd.Close tag)) : TokenItem) ∈ p2 := by
          simpa using hMem
        exact ih res r s2 p2 tag hEq hts hMem2 hNe
      · rcases em with _ | _ | ctag
        · simp only [read_text_go] at hEq
          have hl : s2.length ≤ ts.length := by
            have hlen := read_text_go_length end_tag ts res
            rw [hEq] at hlen
            simpa using hlen
          obtain ⟨p2, hp, hts⟩ := hx_cons_append_decomp hSplit hl
          subst hp
          have hMem2 : (Except.ok (Token.ElementEnd (ElementEnd.Close tag)) : TokenItem) ∈ p2 := by
            simpa using hMem
          exact ih res r s2 p2 tag hEq hts hMem2 hNe
        · simp only [read_text_go, Prod.mk.injEq] at hEq
          obtain ⟨_, h2⟩ := hEq
          subst h2
          rw [hx_append_eq_cons_self hSplit] at hMem
          simp at hMem
        · simp only [read_text_go] at hEq
          by_cases hc : end_tag = ctag
          · rw [if_pos hc] at hEq
            simp only [Prod.mk.injEq] at hEq
            obtain ⟨_, h2⟩ := hEq
            subst h2
            rw [hx_append_eq_cons_self hSplit] at hMem
            simp only [List.mem_singleton, Except.ok.injEq, Token.ElementEnd.injEq,
              ElementEnd.Close.injEq] at hMem
            exact absurd (hMem.trans hc.symm) hNe
          · rw [if_neg hc] at hEq
            simp only [Prod.mk.injEq] at hEq
            obtain ⟨h1, h2⟩ := hEq
            subst h2
            rw [hx_append_eq_cons_self hSplit] at hMem
            simp only [List.mem_singleton, Except.ok.injEq, Token.ElementEnd.injEq,
              ElementEnd.Close.injEq] at hMem
            rw [← h1, hMem]
      · simp only [read_text_go] at hEq
        cases hu : xml_unescape txt with
        | ok u =>
          rw [hu] at hEq
          simp only at hEq
          have hl : s2.length ≤ ts.length := by
            have hlen := read_text_go_length end_tag ts (some u)
            rw [hEq] at hlen
            simpa using hlen
          obtain ⟨p2, hp, hts⟩ := hx_cons_append_decomp hSplit hl
          subst hp
          have hMem2 : (Except.ok (Token.ElementEnd (ElementEnd.Close tag)) : TokenItem) ∈ p2 := by
            simpa using hMem
          exact ih (some u) r s2 p2 tag hEq hts hMem2 hNe
        | error er =>
          rw [hu] at hEq
          simp only [Prod.mk.injEq] at hEq
          obtain ⟨_, h2⟩ := hEq
          subst h2
          rw [hx_append_eq_cons_self hSplit] at hMem
          simp at hMem
      · simp only [read_text_go] at hEq
        have hl : s2.length ≤ ts.length := by
          have hlen := read_text_go_length end_tag ts (some txt)
          rw [hEq] at hlen
          simpa using hlen
        obtain ⟨p2, hp, hts⟩ := hx_cons_append_decomp hSplit hl
        subst hp
        have hMem2 : (Except.ok (Token.ElementEnd (ElementEnd.Close tag)) : TokenItem) ∈ p2 := by
          simpa using hMem
        exact ih (some txt) r s2 p2 tag hEq hts hMem2 hNe
      · simp only [read_text_go, Prod.mk.injEq] at hEq
        obtain ⟨_, h2⟩ := hEq
        subst h2
        rw [hx_append_eq_cons_self hSplit] at hMem
        simp at hMem
      · simp only [read_text_go, Prod.mk.injEq] at hEq
        obtain ⟨_, h2⟩ := hEq
        subst h2
        rw [hx_append_eq_cons_self hSplit] at hMem
        simp at hMem

/-- Every close tag `find_element_start` actually consumes carries the
expected name (a mismatched close is reported without being consumed). -/
theorem find_element_start_close_consumed (expected : String) :
    ∀ (s : TokenStream) (r : Except XmlError (Option String)) (s2 p : TokenStream) (tag : String),
      find_element_start (some expected) s = (r, s2) → s = p ++ s2 →
      (Except.ok (Token.ElementEnd (ElementEnd.Close tag)) : TokenItem) ∈ p → tag = expected := by
  intro s
  induction s with
  | nil =>
    intro r s2 p tag hEq hSplit hMem
    simp only [find_element_start, Prod.mk.injEq] at hEq
    obtain ⟨_, h2⟩ := hEq
    subst h2
    simp only [List.append_nil] at hSplit
    rw [← hSplit] at hMem
    simp at hMem
  | cons t ts ih =>
    intro r s2 p tag hEq hSplit hMem
    rcases t with e | tok
    · simp only [find_element_start, Prod.mk.injEq] at hEq
      obtain ⟨_, h2⟩ := hEq
      subst h2
      rw [hx_append_eq_cons_self hSplit] at hMem
      simp at hMem
    · rcases tok with name | ⟨an, av⟩ | em | txt | txt | txt | txt
      · simp only [find_element_start, Prod.mk.injEq] at hEq
        obtain ⟨_, h2⟩ := hEq
        subst h2
        rw [hx_self_eq_append hSplit] at hMem
        simp at hMem
      · simp only [find_element_start, Prod.mk.injEq] at hEq
        obtain ⟨_, h2⟩ := hEq
        subst h2
        rw [hx_self_eq_append hSplit] at hMem
        simp at hMem
      · rcases em with _ | _ | ctag
        · simp only [find_element_start, Prod.mk.injEq] at hEq
          obtain ⟨_, h2⟩ := hEq
          subst h2
          rw [hx_self_eq_append hSplit] at hMem
          simp at hMem
        · simp only [find_element_start, Prod.mk.injEq] at hEq
          obtain ⟨_, h2⟩ := hEq
          subst h2
          rw [hx_self_eq_append hSplit] at hMem
          simp at hMem
        · simp only [find_element_start] at hEq
          by_cases hc : ctag = expected
          · rw [if_pos hc] at hEq
            simp only [Prod.mk.injEq] at hEq
            obtain ⟨_, h2⟩ := hEq
            subst h2
            rw [hx_append_eq_cons_self hSplit] at hMem
            simp only [List.mem_singleton, Except.ok.injEq, Token.ElementEnd.injEq,
              ElementEnd.Close.injEq] at hMem
            exact hMem.trans hc
          · rw [if_neg hc] at hEq
            simp only [Prod.mk.injEq] at hEq
            obtain ⟨_, h2⟩ := hEq
            subst h2
            rw [hx_self_eq_append hSplit] at hMem
            simp at hMem
      · simp only [find_element_start] at hEq
        have hl : s2.length ≤ ts.length := by
          have hlen := find_element_start_length (some expected) ts
          rw [hEq] at hlen
          simpa using hlen
        obtain ⟨p2, hp, hts⟩ := hx_cons_append_decomp hSplit hl
        subst hp
        have hMem2 : (Except.ok (Token.ElementEnd (ElementEnd.Close tag)) : TokenItem) ∈ p2 := by
          simpa using hMem
        exact ih r s2 p2 tag hEq hts hMem2
      · simp only [find_element_start] at hEq
        have hl : s2.length ≤ ts.length := by
          have hlen := find_element_start_length (some expected) ts
          rw [hEq] at hlen
          simpa using hlen
        obtain ⟨p2, hp, hts⟩ := hx_cons_append_decomp hSplit hl
        subst hp
        have hMem2 : (Except.ok (Token.ElementEnd (ElementEnd.Close tag)) : TokenItem) ∈ p2 := by
          simpa using hMem
        exact ih r s2 p2 tag hEq hts hMem2
      · simp only [find_element_start] at hEq
        have hl : s2.length ≤ ts.length := by
          have hlen := find_element_start_length (some expected) ts
          rw [hEq] at hlen
          simpa using hlen
        obtain ⟨p2, hp, hts⟩ := hx_cons_append_decomp hSplit hl
        subst hp
        have hMem2 : (Except.ok (Token.ElementEnd (ElementEnd.Close tag)) : TokenItem) ∈ p2 := by
          simpa using hMem
        exact ih r s2 p2 tag hEq hts hMem2
      · simp only [find_element_start] at hEq
        have hl : s2.length ≤ ts.length := by
          have hlen := find_element_start_length (some expected) ts
          rw [hEq] at hlen
          simpa using hlen
        obtain ⟨p2, hp, hts⟩ := hx_cons_append_decomp hSplit hl
        subst hp
        have hMem2 : (Except.ok (Token.ElementEnd (ElementEnd.Close tag)) : TokenItem) ∈ p2 := by
          simpa using hMem
        exact ih r s2 p2 tag hEq hts hMem2

/-- One fully well-formed element named `name` whose content is `n` further
levels of same-named nesting: at level `0` either `<name/>` (`e = true`) or
`<name></name>` (`e = false`); at level `n + 1` the element `<name>…</name>`
wrapping the level-`n` element. -/
def pDeep (name : String) (e : Bool) : Nat → TokenStream
  | 0 =>
    if e then [.ok (.ElementStart name), .ok (.ElementEnd .Empty)]
    else [.ok (.ElementStart name), .ok (.ElementEnd .Open), .ok (.ElementEnd (.Close name))]
  | n + 1 =>
    .ok (.ElementStart name) :: .ok (.ElementEnd .Open) ::
      (pDeep name e n ++ [.ok (.ElementEnd (.Close name))])

/-- A complete same-named nested element passes through the depth-tracking
loop of `read_to_end` leaving the tracked depth unchanged. -/
theorem pDeep_tracking (name : String) (e : Bool) :
    ∀ (n d : Nat) (rest : TokenStream), 1 ≤ d →
      read_to_end_go name false d (pDeep name e n ++ rest) = read_to_end_go name false d rest := by
  intro n
  induction n with
  | zero =>
    intro d rest hd
    have hd0 : ¬ d = 0 := by omega
    cases e <;> simp [pDeep, read_to_end_go, hd0]
  | succ n ih =>
    intro d rest hd
    have hd0 : ¬ d = 0 := by omega
    have h1 := ih (d + 1) (.ok (.ElementEnd (.Close name)) :: rest) (by omega)
    simp only [pDeep, List.cons_append, List.append_assoc, List.singleton_append]
    simp [read_to_end_go, h1, hd0]

/-- Claim C1: for every well-formed element with arbitrarily deep same-named
nesting (`<p><p></p></p>`, `<p><p/></p>`, and deeper), `read_to_end "p"`
entered right after consuming the outer `<p` start token consumes tokens
exactly through the outer element's closing tag and no further: whatever
follows the outer close (`rest`) is returned untouched, so no inner close
tag of the same name ends the call early. -/
theorem claim_C1_read_to_end_depth_matching (e : Bool) (n : Nat) (rest : TokenStream) :
    read_to_end "p" (.ok (.ElementEnd .Open) ::
        (pDeep "p" e n ++ .ok (.ElementEnd (.Close "p")) :: rest)) = (.ok (), rest) := by
  have h := pDeep_tracking "p" e n 1 (.ok (.ElementEnd (.Close "p")) :: rest) (le_refl 1)
  simp [read_to_end, read_to_end_go, h]

/-- Claim C2 counterexample: `read_to_end` expecting to close `b` consumes
the differently named close tag `</a>` without failing, keeps scanning, and
returns success at the later `</b>` — so a consumed close tag with the wrong
name does not produce `TagMismatch` in `read_to_end`, refuting the claim for
that operation. -/
theorem claim_C2_counterexample :
    read_to_end "b" [.ok (.ElementEnd .Open), .ok (.ElementEnd (.Close "a")),
        .ok (.ElementEnd (.Close "b")), .ok (.Text "x")] = (.ok (), [.ok (.Text "x")]) := rfl

/-- Claim C2 (amended): whenever `read_text` or `find_element_start` (with an
expected tag) consumes a close tag, its name is checked against the expected
name — a consumed mismatched close makes `read_text` fail with exactly
`TagMismatch{expected, found}`, `find_element_start` only ever consumes a
matching close, and on encountering a mismatched close `find_element_start`
fails with `TagMismatch{expected, found}` leaving it unconsumed.
(`read_to_end`, by contrast, ignores differently named close tags during
depth tracking, as the counterexample shows.) -/
theorem claim_C2_amended_close_matching :
    (∀ (end_tag : String) (s : TokenStream) (r : Except XmlError String) (s2 p : TokenStream)
        (tag : String),
        read_text end_tag s = (r, s2) → s = p ++ s2 →
        (Except.ok (Token.ElementEnd (ElementEnd.Close tag)) : TokenItem) ∈ p → tag ≠ end_tag →
        r = .error (.TagMismatch end_tag tag))
    ∧ (∀ (expected : String) (s : TokenStream) (r : Except XmlError (Option String))
        (s2 p : TokenStream) (tag : String),
        find_element_start (some expected) s = (r, s2) → s = p ++ s2 →
        (Except.ok (Token.ElementEnd (ElementEnd.Close tag)) : TokenItem) ∈ p → tag = expected)
    ∧ (∀ (expected tag : String) (ts : TokenStream), tag ≠ expected →
        find_element_start (some expected) (.ok (.ElementEnd (.Close tag)) :: ts) =
          (.error (.TagMismatch expected tag), .ok (.ElementEnd (.Close tag)) :: ts)) := by
  refine ⟨?_, ?_, ?_⟩
  · intro end_tag s r s2 p tag hEq hSplit hMem hNe
    exact read_text_go_close_mismatch end_tag s none r s2 p tag hEq hSplit hMem hNe
  · intro expected s r s2 p tag hEq hSplit hMem
    exact find_element_start_close_consumed expected s r s2 p tag hEq hSplit hMem
  · intro expected tag ts hNe
    simp [find_element_start, hNe]

/-- Witness for claim C2's amended theorem at concrete inputs. -/
theorem claim_C2_witness :
    (Except.error (XmlError.TagMismatch "b" "a") : Except XmlError String) =
      .error (.TagMismatch "b" "a")
    ∧ ("a" : String) = "a"
    ∧ find_element_start (some "b") [.ok (.ElementEnd (.Close "a"))] =
        (.error (.TagMismatch "b" "a"), [.ok (.ElementEnd (.Close "a"))]) := by
  refine ⟨?_, ?_, ?_⟩
  · exact claim_C2_amended_close_matching.1 "b" [.ok (.ElementEnd (.Close "a"))]
      (.error (.TagMismatch "b" "a")) [] [.ok (.ElementEnd (.Close "a"))] "a"
      (by rfl) (by simp) (by simp) (by decide)
  · exact claim_C2_amended_close_matching.2.1 "a" [.ok (.ElementEnd (.Close "a"))]
      (.ok none) [] [.ok (.ElementEnd (.Close "a"))] "a" (by rfl) (by simp) (by simp)
  · exact claim_C2_amended_close_matching.2.2 "b" "a" [] (by decide)

/-- Tokens `read_till_element_start`'s catch-all arm consumes and skips
(stand-ins for comments, processing instructions, and the like). -/
def miscToken : TokenItem → Bool
  | .ok (.Comment _) => true
  | .ok (.ProcessingInstruction _) => true
  | _ => false

/-- Claim C3 counterexample: on the empty stream — exhausted before any
matching element start is found — `read_till_element_start` returns success,
not `UnexpectedEof`: its search loop simply falls through to `Ok(())`. -/
theorem claim_C3_counterexample :
    read_till_element_start "tag" [] = (.ok (), []) := by
  simp [read_till_element_start]

/-- Claim C3 (amended): when the stream is exhausted at the top level of
`read_till_element_start`'s search (no tokens, or only skippable
comment-like tokens), the call returns success with the stream consumed;
only exhaustion inside the nested `read_to_end` skip of a differently named
element produces `UnexpectedEof`. -/
theorem claim_C3_amended_eof_success :
    (∀ (end_tag : String) (s : TokenStream), (∀ t ∈ s, miscToken t = true) →
        read_till_element_start end_tag s = (.ok (), []))
    ∧ read_till_element_start "tag" [.ok (.ElementStart "skip"), .ok (.ElementEnd .Open)] =
        (.error .UnexpectedEof, []) := by
  constructor
  · intro end_tag s
    induction s with
    | nil => intro _; simp [read_till_element_start]
    | cons t ts ih =>
      intro hAll
      have ht := hAll t (by simp)
      have hts : ∀ x ∈ ts, miscToken x = true := fun x hx => hAll x (by simp [hx])
      rcases t with e | tok
      · simp [miscToken] at ht
      · rcases tok with name | ⟨an, av⟩ | em | t1 | t2 | t3 | t4
        · simp [miscToken] at ht
        · simp [miscToken] at ht
        · rcases em with _ | _ | cn <;> simp [miscToken] at ht
        · simp [miscToken] at ht
        · simp [miscToken] at ht
        · simpa [read_till_element_start] using ih hts
        · simpa [read_till_element_start] using ih hts
  · simp [read_till_element_start, read_to_end, read_to_end_go]

/-- Witness for claim C3's amended theorem at a concrete input. -/
theorem claim_C3_witness :
    read_till_element_start "tag" [.ok (.Comment "note"), .ok (.ProcessingInstruction "pi")] =
      (.ok (), []) :=
  claim_C3_amended_eof_success.1 "tag" _ (by decide)

/-- Tokens `read_text` consumes without resolving: tag-open markers,
attributes, CDATA runs, and text runs whose unescaping succeeds. -/
def textAccumulating : TokenItem → Bool
  | .ok (.ElementEnd .Open) => true
  | .ok (.Attribute _ _) => true
  | .ok (.Cdata _) => true
  | .ok (.Text txt) =>
    match xml_unescape txt with
    | .ok _ => true
    | .error _ => false
  | _ => false

/-- `read_text_go` on a stream of only non-resolving tokens consumes it all
and succeeds. -/
theorem read_text_go_eof_success (end_tag : String) :
    ∀ (s : TokenStream) (res : Option String), (∀ t ∈ s, textAccumulating t = true) →
      ∃ v, read_text_go end_tag res s = (.ok v, []) := by
  intro s
  induction s with
  | nil => intro res _; exact ⟨res.getD "", rfl⟩
  | cons t ts ih =>
    intro res hAll
    have ht := hAll t (by simp)
    have hts : ∀ x ∈ ts, textAccumulating x = true := fun x hx => hAll x (by simp [hx])
    rcases t with e | tok
    · simp [textAccumulating] at ht
    · rcases tok with name | ⟨an, av⟩ | em | txt | txt | txt | txt
      · simp [textAccumulating] at ht
      · simpa [read_text_go] using ih res hts
      · rcases em with _ | _ | cn
        · simpa [read_text_go] using ih res hts
        · simp [textAccumulating] at ht
        · simp [textAccumulating] at ht
      · simp only [textAccumulating] at ht
        cases hu : xml_unescape txt with
        | ok u => simpa [read_text_go, hu] using ih (some u) hts
        | error er => rw [hu] at ht; simp at ht
      · simpa [read_text_go] using ih (some txt) hts
      · simp [textAccumulating] at ht
      · simp [textAccumulating] at ht

/-- Claim C4 counterexample: on a stream exhausted before any close tag or
empty-element marker — `<p` followed by `>` and a CDATA run, then nothing —
`read_text` returns `Ok` with the accumulated text, not `UnexpectedEof`:
its loop falls through to `Ok(res.unwrap_or_default())`. -/
theorem claim_C4_counterexample :
    read_text "p" [.ok (.ElementEnd .Open), .ok (.Cdata "hi")] = (.ok "hi", []) := rfl

/-- Claim C4 (amended): for every input stream exhausted before `read_text`
meets the matching close tag or an empty-element marker (all tokens are the
kinds it consumes without resolving), the call returns success with the
accumulated value — it does not fail with `UnexpectedEof`. -/
theorem claim_C4_amended_eof_returns_accumulated (end_tag : String) (s : TokenStream)
    (h : ∀ t ∈ s, textAccumulating t = true) :
    ∃ v, read_text end_tag s = (.ok v, []) :=
  read_text_go_eof_success end_tag s none h

/-- Witness for claim C4's amended theorem at a concrete input. -/
theorem claim_C4_witness :
    ∃ v, read_text "p" [.ok (.ElementEnd .Open), .ok (.Attribute "a" "b"),
        .ok (.Cdata "tail text")] = (.ok v, []) :=
  claim_C4_amended_eof_returns_accumulated "p" _ (by decide)

/-- Claim C5 counterexample: `find_attribute` hands back the attribute value
exactly as it sits in the token — the escaped form `&amp;` is not decoded to
`&`, so an attribute written with escaping does not read back to its
original un-escaped value. -/
theorem claim_C5_counterexample :
    find_attribute [.ok (.Attribute "attr" "&amp;"), .ok (.ElementEnd .Empty)] =
      (.ok (some ("attr", "&amp;")), [.ok (.ElementEnd .Empty)])
    ∧ ("&amp;" : String) ≠ "&" ∧ xml_unescape "&amp;" = .ok "&" := by
  exact ⟨rfl, by decide, rfl⟩

/-- Claim C5 (amended): reading back `<e attr="v">text</e>` (after the `<e`
start token) with `find_attribute` and `read_text` yields the attribute
value verbatim — escapes in it are not decoded — and the text with escaped
character references decoded; for `<e attr="v"/>` the attribute reads back
verbatim and the text value is empty. -/
theorem claim_C5_amended_roundtrip :
    (∀ (end_tag attr v txt u : String) (rest : TokenStream), xml_unescape txt = .ok u →
        find_attribute (.ok (.Attribute attr v) :: .ok (.ElementEnd .Open) :: .ok (.Text txt) ::
              .ok (.ElementEnd (.Close end_tag)) :: rest) =
          (.ok (some (attr, v)), .ok (.ElementEnd .Open) :: .ok (.Text txt) ::
              .ok (.ElementEnd (.Close end_tag)) :: rest)
        ∧ read_text end_tag (.ok (.ElementEnd .Open) :: .ok (.Text txt) ::
              .ok (.ElementEnd (.Close end_tag)) :: rest) = (.ok u, rest))
    ∧ (∀ (attr v end_tag : String) (rest : TokenStream),
        find_attribute (.ok (.Attribute attr v) :: .ok (.ElementEnd .Empty) :: rest) =
          (.ok (some (attr, v)), .ok (.ElementEnd .Empty) :: rest)
        ∧ read_text end_tag (.ok (.ElementEnd .Empty) :: rest) = (.ok "", rest)) := by
  constructor
  · intro end_tag attr v txt u rest hu
    refine ⟨rfl, ?_⟩
    simp [read_text, read_text_go, hu]
  · intro attr v end_tag rest
    exact ⟨rfl, rfl⟩

/-- Witness for claim C5's amended theorem at concrete inputs. -/
theorem claim_C5_witness :
    find_attribute (.ok (.Attribute "attr" "value") :: .ok (.ElementEnd .Open) ::
          .ok (.Text "&lt;hi&gt;") :: .ok (.ElementEnd (.Close "e")) :: []) =
      (.ok (some ("attr", "value")), .ok (.ElementEnd .Open) :: .ok (.Text "&lt;hi&gt;") ::
          .ok (.ElementEnd (.Close "e")) :: [])
    ∧ read_text "e" (.ok (.ElementEnd .Open) :: .ok (.Text "&lt;hi&gt;") ::
          .ok (.ElementEnd (.Close "e")) :: []) = (.ok "<hi>", []) :=
  claim_C5_amended_roundtrip.1 "e" "attr" "value" "&lt;hi&gt;" "<hi>" [] (by rfl)

/-- Items `read_text` skips without touching the accumulator: tag-open
markers and attributes. -/
def attrOrOpen : TokenItem → Bool
  | .ok (.ElementEnd .Open) => true
  | .ok (.Attribute _ _) => true
  | _ => false

/-- `read_text_go` over only skipped items up to the matching close returns
the accumulator unchanged. -/
theorem read_text_go_no_text (end_tag : String) :
    ∀ (pre : TokenStream) (res : Option String) (rest : TokenStream),
      (∀ t ∈ pre, attrOrOpen t = true) →
      read_text_go end_tag res (pre ++ .ok (.ElementEnd (.Close end_tag)) :: rest) =
        (.ok (res.getD ""), rest) := by
  intro pre
  induction pre with
  | nil => intro res rest _; simp [read_text_go]
  | cons t ts ih =>
    intro res rest hAll
    have ht := hAll t (by simp)
    have hts : ∀ x ∈ ts, attrOrOpen x = true := fun x hx => hAll x (by simp [hx])
    rcases t with e | tok
    · simp [attrOrOpen] at ht
    · rcases tok with name | ⟨an, av⟩ | em | t1 | t2 | t3 | t4
      · simp [attrOrOpen] at ht
      · simpa [read_text_go] using ih res rest hts
      · rcases em with _ | _ | cn
        · simpa [read_text_go] using ih res rest hts
        · simp [attrOrOpen] at ht
        · simp [attrOrOpen] at ht
      · simp [attrOrOpen] at ht
      · simp [attrOrOpen] at ht
      · simp [attrOrOpen] at ht
      · simp [attrOrOpen] at ht

/-- Claim C6: `read_text "p"` returns the empty value, as a non-error
result, for each of `<p></p>`, `<p/>`, and `<p><![CDATA[]]></p>` (after the
`<p` start token is consumed), and in general whenever only tag-open markers
and attributes occur before the element's matching close. -/
theorem claim_C6_empty_content :
    read_text "p" [.ok (.ElementEnd .Open), .ok (.ElementEnd (.Close "p"))] = (.ok "", [])
    ∧ read_text "p" [.ok (.ElementEnd .Empty)] = (.ok "", [])
    ∧ read_text "p" [.ok (.ElementEnd .Open), .ok (.Cdata ""), .ok (.ElementEnd (.Close "p"))] =
        (.ok "", [])
    ∧ (∀ (end_tag : String) (pre rest : TokenStream), (∀ t ∈ pre, attrOrOpen t = true) →
        read_text end_tag (pre ++ .ok (.ElementEnd (.Close end_tag)) :: rest) = (.ok "", rest)) := by
  refine ⟨rfl, rfl, rfl, ?_⟩
  intro end_tag pre rest hAll
  exact read_text_go_no_text end_tag pre none rest hAll

/-- Witness for claim C6's general part at a concrete input. -/
theorem claim_C6_witness :
    read_text "q" ([.ok (.ElementEnd .Open), .ok (.Attribute "k" "v")] ++
        .ok (.ElementEnd (.Close "q")) :: []) = (.ok "", []) :=
  claim_C6_empty_content.2.2.2 "q" _ [] (by decide)

/-- One text-bearing run inside element content: a plain text token or a
CDATA token. -/
inductive TextRun where
  | plain (txt : String) : TextRun
  | cdata (txt : String) : TextRun
deriving DecidableEq

/-- The token a text-bearing run stands for. -/
def TextRun.token : TextRun → TokenItem
  | .plain txt => .ok (.Text txt)
  | .cdata txt => .ok (.Cdata txt)

/-- The value a text-bearing run contributes to `read_text`'s accumulator:
a plain text run goes through the unescaper, a CDATA run is verbatim. -/
def TextRun.value : TextRun → Except XmlError String
  | .plain txt => xml_unescape txt
  | .cdata txt => .ok txt

/-- `read_text_go` over any sequence of text-bearing runs ending at the
matching close returns the value of the last run, whatever the accumulator
held before. -/
theorem read_text_go_runs (end_tag : String) :
    ∀ (runs : List TextRun) (lastRun : TextRun) (u : String) (res : Option String)
      (rest : TokenStream),
      (∀ r ∈ runs, ∃ v, TextRun.value r = .ok v) → TextRun.value lastRun = .ok u →
      read_text_go end_tag res (((runs ++ [lastRun]).map TextRun.token) ++
          .ok (.ElementEnd (.Close end_tag)) :: rest) = (.ok u, rest) := by
  intro runs
  induction runs with
  | nil =>
    intro lastRun u res rest _ hu
    rcases lastRun with txt | txt
    · simp only [TextRun.value] at hu
      simp [read_text_go, TextRun.token, hu]
    · simp only [TextRun.value, Except.ok.injEq] at hu
      subst hu
      simp [read_text_go, TextRun.token]
  | cons r rs ih =>
    intro lastRun u res rest hAll hu
    obtain ⟨v, hv⟩ := hAll r (by simp)
    have hrs : ∀ x ∈ rs, ∃ w, TextRun.value x = .ok w := fun x hx => hAll x (by simp [hx])
    rcases r with txt | txt
    · simp only [TextRun.value] at hv
      simpa [read_text_go, TextRun.token, hv] using ih lastRun u (some v) rest hrs hu
    · simpa [read_text_go, TextRun.token] using ih lastRun u (some txt) rest hrs hu

/-- Claim C7: for every element whose content holds several text or CDATA
runs — any number, in any mixture and order — before the matching close tag,
`read_text` returns the value of the most recent (last) text-bearing token
(a plain text run contributing its unescaped value, a CDATA run its verbatim
text) and raises no error on account of the multiplicity. -/
theorem claim_C7_last_text_wins (end_tag : String) (runs : List TextRun) (lastRun : TextRun)
    (u : String) (rest : TokenStream)
    (hruns : ∀ r ∈ runs, ∃ v, TextRun.value r = .ok v)
    (hlast : TextRun.value lastRun = .ok u) :
    read_text end_tag (((runs ++ [lastRun]).map TextRun.token) ++
        .ok (.ElementEnd (.Close end_tag)) :: rest) = (.ok u, rest) :=
  read_text_go_runs end_tag runs lastRun u none rest hruns hlast

/-- Witness for claim C7 at a concrete mixture: a plain text run, a CDATA
run, then a final plain text run with an escape, whose unescaped value is
returned. -/
theorem claim_C7_witness :
    read_text "p" ((([TextRun.plain "one", TextRun.cdata "two"] ++
          [TextRun.plain "three&amp;"]).map TextRun.token) ++
        .ok (.ElementEnd (.Close "p")) :: []) = (.ok "three&", []) :=
  claim_C7_last_text_wins "p" [TextRun.plain "one", TextRun.cdata "two"]
    (TextRun.plain "three&amp;") "three&" []
    (by
      intro r hr
      simp only [List.mem_cons, List.not_mem_nil, or_false] at hr
      rcases hr with rfl | rfl
      · exact ⟨"one", rfl⟩
      · exact ⟨"two", rfl⟩)
    (by rfl)

/-- Claim C8: `read_text` passes plain text runs through the unescaper but
returns CDATA runs verbatim, never unescaped: in general a text token enters
the accumulator as its unescaped value and a CDATA token as-is, and
concretely the literal `&quot;&apos;&lt;&gt;&amp;` in a text run yields
`"'<>&` while the same literal in a CDATA run is returned unchanged. -/
theorem claim_C8_unescape_text_not_cdata :
    (∀ (end_tag : String) (res : Option String) (txt u : String) (ts : TokenStream),
        xml_unescape txt = .ok u →
        read_text_go end_tag res (.ok (.Text txt) :: ts) = read_text_go end_tag (some u) ts)
    ∧ (∀ (end_tag : String) (res : Option String) (txt : String) (ts : TokenStream),
        read_text_go end_tag res (.ok (.Cdata txt) :: ts) = read_text_go end_tag (some txt) ts)
    ∧ read_text "parent" [.ok (.ElementEnd .Open), .ok (.Text "&quot;&apos;&lt;&gt;&amp;"),
        .ok (.ElementEnd (.Close "parent"))] = (.ok "\"'<>&", [])
    ∧ read_text "parent" [.ok (.ElementEnd .Open), .ok (.Cdata "&quot;&apos;&lt;&gt;&amp;"),
        .ok (.ElementEnd (.Close "parent"))] = (.ok "&quot;&apos;&lt;&gt;&amp;", []) := by
  refine ⟨?_, ?_, rfl, rfl⟩
  · intro end_tag res txt u ts hu
    simp [read_text_go, hu]
  · intro end_tag res txt ts
    rfl

/-- Witness for claim C8's text pass-through part at a concrete input. -/
theorem claim_C8_witness :
    read_text_go "p" none (.ok (.Text "&amp;") :: [.ok (.ElementEnd (.Close "p"))]) =
      read_text_go "p" (some "&") [.ok (.ElementEnd (.Close "p"))] :=
  claim_C8_unescape_text_not_cdata.1 "p" none "&amp;" "&" [.ok (.ElementEnd (.Close "p"))] (by rfl)

/-- Tokens `find_element_start`'s catch-all arm consumes and skips: text,
CDATA, and the comment-like kinds. -/
def findSkips : TokenItem → Bool
  | .ok (.Text _) => true
  | .ok (.Cdata _) => true
  | .ok (.Comment _) => true
  | .ok (.ProcessingInstruction _) => true
  | _ => false

/-- Claim C9 counterexample: a text token in the lookahead — neither an
element start nor the expected close — is consumed and skipped by
`find_element_start`, which then succeeds on the following element start
instead of failing as the claim requires. -/
theorem claim_C9_counterexample :
    find_element_start (some "p") [.ok (.Text " "), .ok (.ElementStart "q")] =
      (.ok (some "q"), [.ok (.ElementStart "q")]) := rfl

/-- Claim C9 (amended): `find_element_start` returns an element start's name
without consuming it; with an expected tag it consumes a matching close
(returning `none`) and fails with `TagMismatch` on a differently named close
without consuming it; end markers, attributes, and (without an expected tag)
close tags give `UnexpectedToken`; text, CDATA and comment-like tokens are
consumed and skipped; an exhausted stream gives `UnexpectedEof`. -/
theorem claim_C9_amended_find_element_start :
    (∀ (end_tag : Option String) (name : String) (ts : TokenStream),
        find_element_start end_tag (.ok (.ElementStart name) :: ts) =
          (.ok (some name), .ok (.ElementStart name) :: ts))
    ∧ (∀ (expected : String) (ts : TokenStream),
        find_element_start (some expected) (.ok (.ElementEnd (.Close expected)) :: ts) =
          (.ok none, ts))
    ∧ (∀ (expected tag : String) (ts : TokenStream), tag ≠ expected →
        find_element_start (some expected) (.ok (.ElementEnd (.Close tag)) :: ts) =
          (.error (.TagMismatch expected tag), .ok (.ElementEnd (.Close tag)) :: ts))
    ∧ (∀ (tag : String) (ts : TokenStream),
        find_element_start none (.ok (.ElementEnd (.Close tag)) :: ts) =
          (.error (.UnexpectedToken (tokenDebug (.ElementEnd (.Close tag)))),
            .ok (.ElementEnd (.Close tag)) :: ts))
    ∧ (∀ (end_tag : Option String) (ts : TokenStream) (a v : String),
        find_element_start end_tag (.ok (.ElementEnd .Open) :: ts) =
          (.error (.UnexpectedToken (tokenDebug (.ElementEnd .Open))),
            .ok (.ElementEnd .Open) :: ts)
        ∧ find_element_start end_tag (.ok (.ElementEnd .Empty) :: ts) =
          (.error (.UnexpectedToken (tokenDebug (.ElementEnd .Empty))),
            .ok (.ElementEnd .Empty) :: ts)
        ∧ find_element_start end_tag (.ok (.Attribute a v) :: ts) =
          (.error (.UnexpectedToken (tokenDebug (.Attribute a v))), .ok (.Attribute a v) :: ts))
    ∧ (∀ (end_tag : Option String) (t : TokenItem) (ts : TokenStream), findSkips t = true →
        find_element_start end_tag (t :: ts) = find_element_start end_tag ts)
    ∧ (∀ end_tag : Option String, find_element_start end_tag [] = (.error .UnexpectedEof, [])) := by
  refine ⟨?_, ?_, ?_, ?_, ?_, ?_, ?_⟩
  · intro end_tag name ts; rfl
  · intro expected ts; simp [find_element_start]
  · intro expected tag ts hNe; simp [find_element_start, hNe]
  · intro tag ts; rfl
  · intro end_tag ts a v; exact ⟨rfl, rfl, rfl⟩
  · intro end_tag t ts hskip
    rcases t with e | tok
    · simp [findSkips] at hskip
    · rcases tok with name | ⟨an, av⟩ | em | t1 | t2 | t3 | t4
      · simp [findSkips] at hskip
      · simp [findSkips] at hskip
      · rcases em with _ | _ | cn <;> simp [findSkips] at hskip
      · rfl
      · rfl
      · rfl
      · rfl
  · intro end_tag; rfl

/-- Witness for claim C9's amended theorem at concrete inputs. -/
theorem claim_C9_witness :
    find_element_start (some "x") [.ok (.ElementEnd (.Close "y"))] =
      (.error (.TagMismatch "x" "y"), [.ok (.ElementEnd (.Close "y"))])
    ∧ find_element_start (some "x") (.ok (.Comment "c") :: [.ok (.ElementStart "z")]) =
        find_element_start (some "x") [.ok (.ElementStart "z")] := by
  constructor
  · exact claim_C9_amended_find_element_start.2.2.1 "x" "y" [] (by decide)
  · exact claim_C9_amended_find_element_start.2.2.2.2.2.1 (some "x") (.ok (.Comment "c"))
      [.ok (.ElementStart "z")] (by decide)

/-- Claim C10: `find_attribute` on an exhausted stream (nothing to peek)
fails with `UnexpectedEof`, and the `none` result that signals the normal
end of an attribute list arises only when the lookahead is a tag-open or
empty-element marker. -/
theorem claim_C10_find_attribute_eof :
    find_attribute [] = (.error .UnexpectedEof, [])
    ∧ ∀ s : TokenStream, (find_attribute s).1 = .ok none →
        (∃ ts, s = .ok (.ElementEnd .Open) :: ts) ∨ (∃ ts, s = .ok (.ElementEnd .Empty) :: ts) := by
  refine ⟨rfl, ?_⟩
  intro s h
  rcases s with _ | ⟨t, ts⟩
  · simp [find_attribute] at h
  · rcases t with e | tok
    · simp [find_attribute] at h
    · rcases tok with name | ⟨an, av⟩ | em | t1 | t2 | t3 | t4
      · simp [find_attribute] at h
      · simp [find_attribute] at h
      · rcases em with _ | _ | cn
        · exact Or.inl ⟨ts, rfl⟩
        · exact Or.inr ⟨ts, rfl⟩
        · simp [find_attribute] at h
      · simp [find_attribute] at h
      · simp [find_attribute] at h
      · simp [find_attribute] at h
      · simp [find_attribute] at h

/-- Witness for claim C10's characterization part at a concrete input. -/
theorem claim_C10_witness :
    (∃ ts, ([.ok (.ElementEnd .Open)] : TokenStream) = .ok (.ElementEnd .Open) :: ts)
    ∨ (∃ ts, ([.ok (.ElementEnd .Open)] : TokenStream) = .ok (.ElementEnd .Empty) :: ts) :=
  claim_C10_find_attribute_eof.2 [.ok (.ElementEnd .Open)] (by rfl)

end HardXml
